import Mathlib

/-!
Shallow embedding of the Automodrinth proxy-pool manager and cycle
controller (src/unnamed/part_000; src/server.js is the earlier proxy-less
variant of the same cycle).  JavaScript strings are modelled as lists of
characters (`Str`); the mutable `state` object is the explicit `St`
structure; every network interaction is passed in as a parameter holding
the outcome the code would have observed (response bodies, success
flags, thrown errors).  Loops are embedded structurally (the batched
test loop carries explicit fuel that the loop bound makes sufficient),
so every definition evaluates on concrete inputs.
-/

namespace Automodrinth

/-- JavaScript strings are modelled as lists of characters. -/
abbrev Str := List Char

/-! ## Proxy pool rotation — `nextProxy`, src/unnamed/part_000 lines 178-183 -/

/-- Embedding of `nextProxy`: `if (!state.proxyPool.length) return null;
const p = state.proxyPool.shift(); state.proxyPool.push(p); return p;`.
Returns the value produced and the pool after the mutation. -/
def nextProxy : List Str → Option Str × List Str
  | [] => (none, [])
  | p :: rest => (some p, rest ++ [p])

/-- Iterated checkout: the values returned by `n` consecutive `nextProxy`
calls together with the final pool. -/
def checkoutN : Nat → List Str → List (Option Str) × List Str
  | 0, l => ([], l)
  | n + 1, l =>
    let r := nextProxy l
    let rs := checkoutN n r.2
    (r.1 :: rs.1, rs.2)

/-- Embedding of the eviction in `downloadFile` (line 265):
`state.proxyPool = state.proxyPool.filter(p => p !== proxy)`. -/
def evict (l : List Str) (x : Str) : List Str := l.filter (· ≠ x)

/-! ## Candidate collection — `fetchProxyCandidates`, lines 116-130 -/

/-- Whitespace stripped by JavaScript `String.prototype.trim` (the ASCII
white space characters; the address lists contain no other kind). -/
def isWsChar (c : Char) : Bool :=
  c = ' ' || c = '\t' || c = '\n' || c = '\r' || c = '\x0b' || c = '\x0c'

/-- JavaScript `s.trim()`: drop whitespace from both ends. -/
def jsTrim (cs : Str) : Str :=
  ((cs.dropWhile isWsChar).reverse.dropWhile isWsChar).reverse

/-- JavaScript `s.split('#')[0]`: everything before the first `#`. -/
def stripComment (cs : Str) : Str := cs.takeWhile (· ≠ '#')

/-- Line normalisation of line 124: `line.trim().split('#')[0].trim()`. -/
def processLine (cs : Str) : Str := jsTrim (stripComment (jsTrim cs))

/-- Line separators of the split regex `/[\r\n]+/`. -/
def isNL (c : Char) : Bool := c = '\r' || c = '\n'

/-- Worker for `splitLines`: `sawNL` records whether the previous
character belonged to a separator run, so that a run of CR/LF characters
produces a single break, exactly like splitting on `/[\r\n]+/`. -/
def splitLinesAux (sawNL : Bool) (acc : Str) : Str → List Str
  | [] => [acc.reverse]
  | c :: rest =>
    if isNL c then
      if sawNL then splitLinesAux true acc rest
      else acc.reverse :: splitLinesAux true [] rest
    else splitLinesAux false (c :: acc) rest

/-- JavaScript `text.split(/[\r\n]+/)` (line 123): split on maximal runs
of carriage returns and newlines. -/
def splitLines (cs : Str) : List Str := splitLinesAux false [] cs

/-- Greedy split of the leading digit run, as matched by `\d+`. -/
def digitRun : Str → Str × Str
  | [] => ([], [])
  | c :: rest =>
    if c.isDigit then
      let r := digitRun rest
      (c :: r.1, r.2)
    else ([], c :: rest)

/-- Consume `\d{1,3}` and return the remainder; fails when the leading
digit run is empty or longer than three digits. -/
def group13 (cs : Str) : Option Str :=
  let r := digitRun cs
  if 1 ≤ r.1.length ∧ r.1.length ≤ 3 then some r.2 else none

/-- Consume one expected literal character. -/
def expectChar (c : Char) : Str → Option Str
  | [] => none
  | x :: rest => if x = c then some rest else none

/-- Anchored matcher for the candidate pattern of line 125,
`/^\d{1,3}(\.\d{1,3}){3}:\d{2,5}$/`.  Greedy scanning agrees with the
regex because each digit run is delimited by a non-digit (`.`/`:`) or by
the anchored end of the string. -/
def parseCandidate (cs : Str) : Option Unit :=
  (group13 cs).bind fun r1 =>
  (expectChar '.' r1).bind fun s1 =>
  (group13 s1).bind fun r2 =>
  (expectChar '.' r2).bind fun s2 =>
  (group13 s2).bind fun r3 =>
  (expectChar '.' r3).bind fun s3 =>
  (group13 s3).bind fun r4 =>
  (expectChar ':' r4).bind fun s4 =>
  let p := digitRun s4
  if 2 ≤ p.1.length ∧ p.1.length ≤ 5 ∧ p.2 = [] then some () else none

/-- Boolean form of the regex test `re.test(t)` on line 125. -/
def proxyRe (cs : Str) : Bool := (parseCandidate cs).isSome

/-- JavaScript `Set.prototype.add` on an insertion-ordered
duplicate-free list. -/
def addOnce (s : List Str) (x : Str) : List Str :=
  if x ∈ s then s else s ++ [x]

/-- Per-line step of the collection loop (lines 123-126): normalise the
line and add it to the set when it matches the pattern. -/
def addLine (s : List Str) (line : Str) : List Str :=
  let t := processLine line
  if proxyRe t then addOnce s t else s

/-- All lines of one successfully fetched source body. -/
def collectText (s : List Str) (text : Str) : List Str :=
  (splitLines text).foldl addLine s

/-- Embedding of `fetchProxyCandidates` (lines 116-130).  `texts` holds
the bodies of the sources that were fetched successfully: a source that
rejects, times out, or answers with a non-ok status contributes nothing
(`Promise.allSettled` plus the `res.ok` guard and the per-source
`catch`), which here means it simply does not appear in `texts`. -/
def fetchProxyCandidates (texts : List Str) : List Str :=
  texts.foldl collectText []

/-- All characters of a group are ASCII digits. -/
def allDigits (g : Str) : Prop := ∀ c ∈ g, c.isDigit

/-- Declarative reading of the accepted line shape, stated independently
of the scanner: four dot-separated digit groups of one to three digits
each, a colon, and a digit port of two to five digits. -/
def specLineShape (cs : Str) : Prop :=
  ∃ g1 g2 g3 g4 p : Str,
    cs = g1 ++ '.' :: (g2 ++ '.' :: (g3 ++ '.' :: (g4 ++ ':' :: p))) ∧
    (allDigits g1 ∧ 1 ≤ g1.length ∧ g1.length ≤ 3) ∧
    (allDigits g2 ∧ 1 ≤ g2.length ∧ g2.length ≤ 3) ∧
    (allDigits g3 ∧ 1 ≤ g3.length ∧ g3.length ≤ 3) ∧
    (allDigits g4 ∧ 1 ≤ g4.length ∧ g4.length ≤ 3) ∧
    (allDigits p ∧ 2 ≤ p.length ∧ p.length ≤ 5)

/-! ## State — the `state` object, lines 40-47 -/

/-- One entry of a version's `files` array, restricted to the fields the
core reads. -/
structure MFile where
  url : Str
  filename : Str
  primary : Bool
deriving DecidableEq

/-- One version entry as consumed by `downloadFile`. -/
structure Version where
  files : List MFile
  version_number : Str
deriving DecidableEq

/-- The `lastDl` record (line 260), keeping the fields the core writes
from its own data (`loader`/`gameVer`/timestamp are opaque
pass-throughs and omitted).  `via = none` encodes the direct marker. -/
structure DlRecord where
  filename : Str
  version_number : Str
  sizeKB : Nat
  via : Option Str
deriving DecidableEq

/-- The mutable `state` object (lines 40-47), restricted to the fields
the pool manager and the cycle controller read or write.  The log array
and timestamps other than `lastProxyRefresh` belong to the external
log/metrics sink and are omitted. -/
structure St where
  views : Nat
  downloads : Nat
  dlFailed : Nat
  errors : Nat
  cycles : Nat
  lastError : Option String
  lastDl : Option DlRecord
  versions : List Version
  proxyPool : List Str
  proxyTested : Nat
  proxyWorking : Nat
  proxyRefreshing : Bool
  lastProxyRefresh : Option String
deriving DecidableEq

/-! ## Pool refresh — `refreshProxyPool`, lines 146-175 -/

/-- The batched test loop of lines 159-163, with explicit fuel standing
for the remaining loop iterations: starting at index `i`, filter batches
of 15 through `test` (the outcome `testProxy` would report for each
candidate) until the sample is exhausted or at least 35 working members
have accumulated.  Each iteration advances `i` by 15, so `pool.length`
iterations are always enough fuel; `batchLoop` below supplies that. -/
def batchLoopF (test : Str → Bool) (pool : List Str) :
    Nat → Nat → List Str → List Str
  | 0, _, working => working
  | fuel + 1, i, working =>
    if i < pool.length ∧ working.length < 35 then
      batchLoopF test pool fuel (i + 15)
        (working ++ ((pool.drop i).take 15).filter test)
    else working

/-- The complete test loop `for (let i = 0; i < pool.length &&
working.length < 35; i += BATCH)` applied to the sampled pool. -/
def batchLoop (test : Str → Bool) (pool : List Str) : List Str :=
  batchLoopF test pool pool.length 0 []

/-- Result of one refresher invocation: the new state, and whether the
candidate collector (the network phase) was invoked at all. -/
structure RefreshOutcome where
  st : St
  collectorInvoked : Bool
deriving DecidableEq

/-- Embedding of `refreshProxyPool` (lines 146-175).  The parameters
stand for the outside world: `texts` is the outcome of the awaited
network phase (`.error` models an unexpected rejection anywhere in the
`try` block — the five state assignments of lines 165-168 cannot throw,
so every caught error happens before any of them runs; `.ok` carries the
source bodies handed to `fetchProxyCandidates`); `sh` is the random
shuffle `candidates.sort(() => Math.random() - 0.5)`; `test` gives each
candidate's `testProxy` verdict; `now` is the refresh timestamp.  The
in-progress flag is raised at entry and lowered after the `try`/`catch`,
leaving `false` in every completed outcome. -/
def refreshProxyPool (st : St) (texts : Except String (List Str))
    (sh : List Str → List Str) (test : Str → Bool) (now : String) :
    RefreshOutcome :=
  if st.proxyRefreshing then ⟨st, false⟩
  else
    match texts with
    | .error _ => ⟨{ st with proxyRefreshing := false }, true⟩
    | .ok ts =>
      let pool := (sh (fetchProxyCandidates ts)).take 80
      let working := batchLoop test pool
      ⟨{ st with
          proxyTested := min pool.length 80
          proxyWorking := working.length
          proxyPool := working
          lastProxyRefresh := some now
          proxyRefreshing := false }, true⟩

/-! ## Download — `downloadFile`, lines 231-290 -/

/-- Observable outcome of one `fetch` of the file: either a response
with its HTTP status and body size, or a thrown error (timeout,
connection failure). -/
inductive Resp where
  | ok (status : Nat) (bodyLen : Nat)
  | err (msg : String)
deriving DecidableEq

/-- `res.ok` of the Fetch API: the status lies in the 200-299 range. -/
def statusOk (s : Nat) : Bool := 200 ≤ s ∧ s < 300

/-- The proxied attempt of lines 254-257 as `downloadFile` interprets
the response: non-ok status and undersized bodies (fewer than 100
bytes) are thrown, otherwise the body size is the result. -/
def attemptResult : Resp → Except String Nat
  | .ok s len =>
    if statusOk s = false then .error ("HTTP " ++ toString s)
    else if len < 100 then .error ("Too small: " ++ toString len ++ "b")
    else .ok len
  | .err m => .error m

/-- The direct attempt of lines 275-278; identical checks, with the
shorter `Too small` message of line 278. -/
def directResult : Resp → Except String Nat
  | .ok s len =>
    if statusOk s = false then .error ("HTTP " ++ toString s)
    else if len < 100 then .error "Too small"
    else .ok len
  | .err m => .error m

/-- File choice of line 235: `ver.files.find(f => f.primary) ||
ver.files[0]`; `none` means even `files[0]` is `undefined`. -/
def pickFile (v : Version) : Option MFile :=
  (v.files.find? (·.primary)).orElse fun _ => v.files.head?

/-- `Math.round(byteLength / 1024)` on a natural byte count. -/
def sizeKBOf (len : Nat) : Nat := (len + 512) / 1024

/-- Observable outcome of one `downloadFile` call: the state after the
call, whether it returned `true`, which proxy (if any) was checked out,
whether the proxied attempt succeeded, whether the direct fallback ran,
and how many fetch attempts were made in total. -/
structure DlOutcome where
  st : St
  success : Bool
  proxyTried : Option Str
  proxyOk : Bool
  directTried : Bool
  attempts : Nat
deriving DecidableEq

/-- The direct-connection fallback of lines 274-289. -/
def directAttempt (st : St) (file : MFile) (ver : Version)
    (proxyTried : Option Str) (attempts : Nat) (directResp : Resp) :
    DlOutcome :=
  match directResult directResp with
  | .ok len =>
    ⟨{ st with
        downloads := st.downloads + 1
        lastDl := some ⟨file.filename, ver.version_number, sizeKBOf len, none⟩ },
      true, proxyTried, false, true, attempts + 1⟩
  | .error m =>
    ⟨{ st with dlFailed := st.dlFailed + 1, lastError := some m },
      false, proxyTried, false, true, attempts + 1⟩

/-- Embedding of `downloadFile` (lines 231-290).  `vIx` models the
random version pick `randEl(state.versions)` (reduced modulo the length,
as `Math.floor(Math.random()*len)` always lands inside the array);
`proxyResp` and `directResp` are the network outcomes the proxied and
the direct fetch would observe.  The `none` result models the one
uncaught throw in the body: reading `.url` of `undefined` when a version
has an empty `files` array (`loadVersions` filters those out). -/
def downloadFile (st : St) (vIx : Nat) (proxyResp directResp : Resp) :
    Option DlOutcome :=
  if st.versions.isEmpty then some ⟨st, false, none, false, false, 0⟩
  else
    let ver := st.versions.getD (vIx % st.versions.length) ⟨[], []⟩
    match pickFile ver with
    | none => none
    | some file =>
      let r := nextProxy st.proxyPool
      let st1 := { st with proxyPool := r.2 }
      match r.1 with
      | some proxy =>
        match attemptResult proxyResp with
        | .ok len =>
          some ⟨{ st1 with
              downloads := st1.downloads + 1
              lastDl := some ⟨file.filename, ver.version_number,
                sizeKBOf len, some proxy⟩ },
            true, some proxy, true, false, 1⟩
        | .error _ =>
          let pool := evict st1.proxyPool proxy
          some (directAttempt
            { st1 with proxyPool := pool, proxyWorking := pool.length }
            file ver (some proxy) 1 directResp)
      | none => directAttempt st1 file ver none 0 directResp

/-! ## Cycle controller — `runCycle`, lines 295-321 -/

/-- Result of one cycle: the state afterwards, whether
`setTimeout(runCycle, jitter(INTERVAL_MS))` was reached, and whether the
(fire-and-forget) pool refresh was triggered this cycle. -/
structure CycleOutcome where
  st : St
  rescheduled : Bool
  refreshTriggered : Bool

/-- Embedding of `runCycle` (lines 295-321): increment the cycle
counter; trigger the refresh on cycle 1 and every `PROXY_REFRESH_EVERY`
= 25th cycle (not awaited); run the cycle body (`loadVersions`,
`registerView`, the reading delay, `downloadFile`), abstracted as a
state transformer that may also raise an error after its partial
updates; catch such an error, counting it as a cycle-level error; and
always fall through to scheduling the next cycle. -/
def runCycle (st : St) (body : St → St × Option String) : CycleOutcome :=
  let st1 := { st with cycles := st.cycles + 1 }
  let trig := st1.cycles = 1 ∨ st1.cycles % 25 = 0
  let rb := body st1
  match rb.2 with
  | none => ⟨rb.1, true, trig⟩
  | some e =>
    ⟨{ rb.1 with errors := rb.1.errors + 1, lastError := some e }, true, trig⟩

/-! ## Concrete inputs used by witnesses and counterexamples -/

/-- The initial state of lines 40-47. -/
def st0 : St :=
  { views := 0, downloads := 0, dlFailed := 0, errors := 0, cycles := 0
    lastError := none, lastDl := none, versions := [], proxyPool := []
    proxyTested := 0, proxyWorking := 0, proxyRefreshing := false
    lastProxyRefresh := none }

/-- A health-test oracle under which every candidate passes. -/
def testAll : Str → Bool := fun _ => true

/-- A source body of forty-five distinct valid candidate lines
(`1.1.1.1:10` … `1.1.1.1:54`), newline-separated. -/
def bigBody : Str :=
  (List.range 45).foldr
    (fun k acc => ("1.1.1.1:" ++ toString (10 + k)).toList ++ '\n' :: acc) []

/-- The single version of the C4 scenario: one primary file
`mod-1.0.jar`. -/
def vC4 : Version :=
  ⟨[⟨"u".toList, "mod-1.0.jar".toList, true⟩], "1.0".toList⟩

/-- The C4 scenario state: pool of exactly `1.2.3.4:8080`, one version. -/
def stC4 : St :=
  { st0 with proxyPool := ["1.2.3.4:8080".toList], versions := [vC4] }

/-- The concrete outcome of the C4 scenario call. -/
def oC4 : DlOutcome :=
  (downloadFile stC4 0 (.ok 200 50) (.err "no net")).getD
    ⟨st0, false, none, false, false, 0⟩

/-- A cycle body that raises an error without touching the state. -/
def bodyBoom : St → St × Option String := fun s => (s, some "boom")

/-- A state in which a refresh is already marked in progress. -/
def stFlag : St := { st0 with proxyRefreshing := true }

/-! ## Pool rotation properties -/

lemma checkoutN_take_rotate (k : Nat) :
    ∀ l : List Str, k ≤ l.length →
      checkoutN k l = ((l.take k).map some, l.rotate k) := by
  induction k with
  | zero => intro l _; simp [checkoutN]
  | succ k ih =>
    intro l hl
    match l with
    | [] => simp at hl
    | a :: t =>
      have ht : k ≤ (t ++ [a]).length := by
        simp only [List.length_append, List.length_singleton]
        simp only [List.length_cons] at hl
        omega
      have hk : k ≤ t.length := by
        simp only [List.length_cons] at hl; omega
      simp only [checkoutN, nextProxy, ih (t ++ [a]) ht]
      rw [List.take_append_of_le_length hk, List.take_succ_cons,
        List.rotate_cons_succ]
      simp

lemma not_mem_checkoutN (k : Nat) :
    ∀ (l : List Str) (x : Str), x ∉ l →
      some x ∉ (checkoutN k l).1 ∧ x ∉ (checkoutN k l).2 := by
  induction k with
  | zero => intro l x hx; simpa [checkoutN] using hx
  | succ k ih =>
    intro l x hx
    match l with
    | [] =>
      have := ih [] x (by simp)
      simp only [checkoutN, nextProxy]
      exact ⟨by simp [this.1], this.2⟩
    | a :: t =>
      have hax : x ≠ a := fun h => hx (h ▸ List.mem_cons_self a t)
      have hxt : x ∉ t := fun h => hx (List.mem_cons_of_mem a h)
      have hx' : x ∉ t ++ [a] := by
        simp only [List.mem_append, List.mem_singleton]
        exact fun h => h.elim hxt hax
      have := ih (t ++ [a]) x hx'
      simp only [checkoutN, nextProxy]
      refine ⟨?_, this.2⟩
      simp only [List.mem_cons]
      rintro (h | h)
      · exact hax (Option.some.inj h.symm).symm
      · exact this.1 h

/-- C5. Round-robin rotation: for a pool of `N` distinct members with no
evictions and no replace in between, `N` consecutive `nextProxy` calls
return exactly the members of the pool in order (a duplicate-free output
covering every member, so each member is returned exactly once before
any repeat), each individual call moves the head to the tail, and the
pool returns to its original arrangement after the `N` calls. -/
theorem roundRobin_checkout (l : List Str) (hnd : l.Nodup) :
    (checkoutN l.length l).1 = l.map some ∧
    ((checkoutN l.length l).1).Nodup ∧
    (∀ x ∈ l, some x ∈ (checkoutN l.length l).1) ∧
    (checkoutN l.length l).2 = l ∧
    (∀ (a : Str) (t : List Str), nextProxy (a :: t) = (some a, t ++ [a])) := by
  have h := checkoutN_take_rotate l.length l le_rfl
  have h1 : (checkoutN l.length l).1 = l.map some := by
    rw [h]; simp
  refine ⟨h1, ?_, ?_, ?_, fun a t => rfl⟩
  · rw [h1]
    exact hnd.map (fun _ _ h => Option.some.inj h)
  · intro x hx
    rw [h1]
    exact List.mem_map_of_mem some hx
  · rw [h]; simp [List.rotate_length]

/-- Witness for `roundRobin_checkout` at a concrete three-member pool. -/
theorem roundRobin_checkout_witness :
    (['a'] :: ['b'] :: ['c'] :: ([] : List Str)).Nodup ∧
    (checkoutN 3 [['a'], ['b'], ['c']]).1 =
      [some ['a'], some ['b'], some ['c']] := by
  refine ⟨by decide, ?_⟩
  have h := roundRobin_checkout [['a'], ['b'], ['c']] (by decide)
  simpa using h.1

/-- C8. After `evict x`, no sequence of subsequent checkouts ever
returns `x` (until a later `replace` writes a new pool); eviction
removes every occurrence of `x`; and eviction of an absent member is a
no-op. -/
theorem evict_sound (l : List Str) (x : Str) (k : Nat) :
    some x ∉ (checkoutN k (evict l x)).1 ∧
    x ∉ evict l x ∧
    (x ∉ l → evict l x = l) := by
  have hx : x ∉ evict l x := by
    intro h
    have := List.of_mem_filter h
    simp at this
  refine ⟨(not_mem_checkoutN k (evict l x) x hx).1, hx, ?_⟩
  intro hxl
  apply List.filter_eq_self.mpr
  intro p hp
  simp only [decide_eq_true_eq]
  exact fun h => hxl (h ▸ hp)

/-- Witness for `evict_sound` at a concrete pool and member. -/
theorem evict_sound_witness :
    some ['b'] ∉ (checkoutN 2 (evict [['a'], ['b']] ['b'])).1 ∧
    evict [['a'], ['b']] ['b'] = [['a']] ∧
    evict [['a']] ['b'] = [['a']] :=
  ⟨(evict_sound [['a'], ['b']] ['b'] 2).1, by decide,
    (evict_sound [['a']] ['b'] 0).2.2 (by decide)⟩

/-- C9. Checkout on an empty pool returns the empty marker (`none`, the
embedding of `null`) and, being a total function, cannot throw;
checkout on a singleton pool returns that same member on every one of
`k` consecutive calls and leaves the pool — hence its size — unchanged. -/
theorem checkout_empty_singleton :
    nextProxy ([] : List Str) = (none, []) ∧
    (∀ (a : Str) (k : Nat),
      (checkoutN k [a]).1 = List.replicate k (some a) ∧
      (checkoutN k [a]).2 = [a]) := by
  refine ⟨rfl, fun a k => ?_⟩
  induction k with
  | zero => simp [checkoutN]
  | succ k ih =>
    simp only [checkoutN, nextProxy, List.nil_append, List.replicate_succ]
    exact ⟨by rw [ih.1], ih.2⟩

/-! ## Candidate parsing properties -/

lemma digitRun_split (cs : Str) :
    cs = (digitRun cs).1 ++ (digitRun cs).2 ∧
    allDigits (digitRun cs).1 ∧
    (∀ c cs', (digitRun cs).2 = c :: cs' → c.isDigit = false) := by
  induction cs with
  | nil =>
    exact ⟨rfl, fun c hc => absurd hc (List.not_mem_nil c),
      fun c cs' h => by cases h⟩
  | cons c rest ih =>
    by_cases hc : c.isDigit
    · simp only [digitRun, if_pos hc]
      refine ⟨?_, ?_, ih.2.2⟩
      · conv_lhs => rw [ih.1]
        rw [List.cons_append]
      · intro d hd
        rcases List.mem_cons.mp hd with rfl | h
        · exact hc
        · exact ih.2.1 d h
    · simp only [digitRun, if_neg hc]
      refine ⟨rfl, fun d hd => absurd hd (List.not_mem_nil d), ?_⟩
      intro d cs' h
      injection h with h1 _
      subst h1
      exact Bool.not_eq_true _ ▸ (by simpa using hc)

lemma digitRun_append (g r : Str) (hg : allDigits g)
    (hr : ∀ c cs', r = c :: cs' → c.isDigit = false) :
    digitRun (g ++ r) = (g, r) := by
  induction g with
  | nil =>
    cases r with
    | nil => rfl
    | cons c cs' =>
      have := hr c cs' rfl
      simp [digitRun, this]
  | cons c g ih =>
    have hc : c.isDigit := hg c (List.mem_cons_self c g)
    have hg' : allDigits g := fun d hd => hg d (List.mem_cons_of_mem c hd)
    simp [digitRun, hc, ih hg']

lemma group13_eq_some (cs rest : Str) (h : group13 cs = some rest) :
    ∃ g : Str, cs = g ++ rest ∧ allDigits g ∧ 1 ≤ g.length ∧
      g.length ≤ 3 ∧ (∀ c cs', rest = c :: cs' → c.isDigit = false) := by
  simp only [group13] at h
  split at h
  · rename_i hlen
    injection h with h1
    subst h1
    obtain ⟨hsplit, hdig, hhd⟩ := digitRun_split cs
    exact ⟨(digitRun cs).1, hsplit, hdig, hlen.1, hlen.2, hhd⟩
  · cases h

lemma group13_append (g r : Str) (hg : allDigits g) (h1 : 1 ≤ g.length)
    (h3 : g.length ≤ 3)
    (hr : ∀ c cs', r = c :: cs' → c.isDigit = false) :
    group13 (g ++ r) = some r := by
  simp only [group13, digitRun_append g r hg hr]
  simp [h1, h3]

lemma expectChar_eq_some (c : Char) (cs rest : Str) :
    expectChar c cs = some rest ↔ cs = c :: rest := by
  cases cs with
  | nil => simp [expectChar]
  | cons x xs =>
    by_cases hx : x = c
    · subst hx; simp [expectChar]
    · simp [expectChar, hx]

lemma head_dot_not_digit (t : Str) :
    ∀ c cs', ('.' :: t) = c :: cs' → c.isDigit = false := by
  intro c cs' h
  injection h with h1 _
  subst h1
  decide

lemma head_colon_not_digit (t : Str) :
    ∀ c cs', (':' :: t) = c :: cs' → c.isDigit = false := by
  intro c cs' h
  injection h with h1 _
  subst h1
  decide

lemma parseCandidate_spec (cs : Str) (h : proxyRe cs = true) :
    specLineShape cs := by
  unfold proxyRe at h
  rw [Option.isSome_iff_exists] at h
  obtain ⟨u, hu⟩ := h
  unfold parseCandidate at hu
  rw [Option.bind_eq_some] at hu
  obtain ⟨r1, hg1, hu⟩ := hu
  rw [Option.bind_eq_some] at hu
  obtain ⟨s1, he1, hu⟩ := hu
  rw [Option.bind_eq_some] at hu
  obtain ⟨r2, hg2, hu⟩ := hu
  rw [Option.bind_eq_some] at hu
  obtain ⟨s2, he2, hu⟩ := hu
  rw [Option.bind_eq_some] at hu
  obtain ⟨r3, hg3, hu⟩ := hu
  rw [Option.bind_eq_some] at hu
  obtain ⟨s3, he3, hu⟩ := hu
  rw [Option.bind_eq_some] at hu
  obtain ⟨r4, hg4, hu⟩ := hu
  rw [Option.bind_eq_some] at hu
  obtain ⟨s4, he4, hu⟩ := hu
  simp only [] at hu
  split at hu
  · rename_i hport
    obtain ⟨g1, hcs1, hd1, h11, h13, _⟩ := group13_eq_some cs r1 hg1
    rw [expectChar_eq_some] at he1
    obtain ⟨g2, hcs2, hd2, h21, h23, _⟩ := group13_eq_some s1 r2 hg2
    rw [expectChar_eq_some] at he2
    obtain ⟨g3, hcs3, hd3, h31, h33, _⟩ := group13_eq_some s2 r3 hg3
    rw [expectChar_eq_some] at he3
    obtain ⟨g4, hcs4, hd4, h41, h43, _⟩ := group13_eq_some s3 r4 hg4
    rw [expectChar_eq_some] at he4
    obtain ⟨hs4, hdp, _⟩ := digitRun_split s4
    have hs4' : s4 = (digitRun s4).1 := by
      rw [hport.2.2] at hs4
      simpa using hs4
    refine ⟨g1, g2, g3, g4, (digitRun s4).1, ?_, ⟨hd1, h11, h13⟩,
      ⟨hd2, h21, h23⟩, ⟨hd3, h31, h33⟩, ⟨hd4, h41, h43⟩,
      ⟨hdp, hport.1, hport.2.1⟩⟩
    rw [hcs1, he1, hcs2, he2, hcs3, he3, hcs4, he4, ← hs4']
  · cases hu

lemma spec_parseCandidate (cs : Str) (h : specLineShape cs) :
    proxyRe cs = true := by
  obtain ⟨g1, g2, g3, g4, p, hcs, ⟨hd1, h11, h13⟩, ⟨hd2, h21, h23⟩,
    ⟨hd3, h31, h33⟩, ⟨hd4, h41, h43⟩, ⟨hdp, hp2, hp5⟩⟩ := h
  subst hcs
  have hdrp : digitRun p = (p, []) := by
    have := digitRun_append p [] hdp (fun c cs' hh => by cases hh)
    simpa using this
  unfold proxyRe parseCandidate
  rw [group13_append g1 _ hd1 h11 h13 (head_dot_not_digit _),
    Option.some_bind, (expectChar_eq_some '.' _ _).mpr rfl,
    Option.some_bind,
    group13_append g2 _ hd2 h21 h23 (head_dot_not_digit _),
    Option.some_bind, (expectChar_eq_some '.' _ _).mpr rfl,
    Option.some_bind,
    group13_append g3 _ hd3 h31 h33 (head_dot_not_digit _),
    Option.some_bind, (expectChar_eq_some '.' _ _).mpr rfl,
    Option.some_bind,
    group13_append g4 _ hd4 h41 h43 (head_colon_not_digit _),
    Option.some_bind, (expectChar_eq_some ':' _ _).mpr rfl,
    Option.some_bind, hdrp]
  simp [hp2, hp5]

lemma proxyRe_iff_spec (cs : Str) :
    proxyRe cs = true ↔ specLineShape cs :=
  ⟨parseCandidate_spec cs, spec_parseCandidate cs⟩

lemma mem_addOnce (s : List Str) (x y : Str) :
    y ∈ addOnce s x ↔ y ∈ s ∨ y = x := by
  unfold addOnce
  split
  · rename_i hx
    constructor
    · exact Or.inl
    · rintro (h | rfl)
      · exact h
      · exact hx
  · simp

lemma mem_addLine (s : List Str) (line y : Str) :
    y ∈ addLine s line ↔
      y ∈ s ∨ (processLine line = y ∧ proxyRe y = true) := by
  simp only [addLine]
  split
  · rename_i hre
    rw [mem_addOnce]
    constructor
    · rintro (h | rfl)
      · exact Or.inl h
      · exact Or.inr ⟨rfl, hre⟩
    · rintro (h | ⟨rfl, _⟩)
      · exact Or.inl h
      · exact Or.inr rfl
  · rename_i hre
    constructor
    · exact Or.inl
    · rintro (h | ⟨rfl, hy⟩)
      · exact h
      · exact absurd hy hre

lemma mem_foldl_addLine (lines : List Str) :
    ∀ (s : List Str) (y : Str),
      y ∈ lines.foldl addLine s ↔
        y ∈ s ∨ ∃ line ∈ lines, processLine line = y ∧ proxyRe y = true := by
  induction lines with
  | nil => intro s y; simp
  | cons l ls ih =>
    intro s y
    rw [List.foldl_cons, ih, mem_addLine]
    constructor
    · rintro ((h | ⟨h1, h2⟩) | ⟨line, hl, h1, h2⟩)
      · exact Or.inl h
      · exact Or.inr ⟨l, List.mem_cons_self l ls, h1, h2⟩
      · exact Or.inr ⟨line, List.mem_cons_of_mem l hl, h1, h2⟩
    · rintro (h | ⟨line, hl, h1, h2⟩)
      · exact Or.inl (Or.inl h)
      · rcases List.mem_cons.mp hl with rfl | hl'
        · exact Or.inl (Or.inr ⟨h1, h2⟩)
        · exact Or.inr ⟨line, hl', h1, h2⟩

lemma mem_foldl_collectText (texts : List Str) :
    ∀ (s : List Str) (y : Str),
      y ∈ texts.foldl collectText s ↔
        y ∈ s ∨ ∃ t ∈ texts, ∃ line ∈ splitLines t,
          processLine line = y ∧ proxyRe y = true := by
  induction texts with
  | nil => intro s y; simp
  | cons t ts ih =>
    intro s y
    rw [List.foldl_cons, ih]
    unfold collectText
    rw [mem_foldl_addLine]
    constructor
    · rintro ((h | ⟨line, hl, h1, h2⟩) | ⟨t', ht', rest⟩)
      · exact Or.inl h
      · exact Or.inr ⟨t, List.mem_cons_self t ts, line, hl, h1, h2⟩
      · exact Or.inr ⟨t', List.mem_cons_of_mem t ht', rest⟩
    · rintro (h | ⟨t', ht', line, hl, h1, h2⟩)
      · exact Or.inl (Or.inl h)
      · rcases List.mem_cons.mp ht' with rfl | ht''
        · exact Or.inl (Or.inr ⟨line, hl, h1, h2⟩)
        · exact Or.inr ⟨t', ht'', line, hl, h1, h2⟩

lemma nodup_addOnce (s : List Str) (x : Str) (h : s.Nodup) :
    (addOnce s x).Nodup := by
  unfold addOnce
  split
  · exact h
  · rename_i hx
    simp [List.nodup_append, h, hx]

lemma nodup_addLine (s : List Str) (line : Str) (h : s.Nodup) :
    (addLine s line).Nodup := by
  simp only [addLine]
  split
  · exact nodup_addOnce _ _ h
  · exact h

lemma nodup_foldl_addLine (lines : List Str) :
    ∀ s : List Str, s.Nodup → (lines.foldl addLine s).Nodup := by
  induction lines with
  | nil => intro s h; exact h
  | cons l ls ih => intro s h; exact ih _ (nodup_addLine s l h)

lemma nodup_foldl_collectText (texts : List Str) :
    ∀ s : List Str, s.Nodup → (texts.foldl collectText s).Nodup := by
  induction texts with
  | nil => intro s h; exact h
  | cons t ts ih =>
    intro s h
    exact ih _ (nodup_foldl_addLine (splitLines t) s h)

/-- C2 (amended). A line of a fetched source body is retained by the
candidate collector if and only if, after trimming, stripping a `#`
comment and trimming again, it consists of four dot-separated digit
groups of one to three digits each (no 0-255 octet-range check: the
pattern is `\d{1,3}`, so `999.1.2.3:80` is retained) followed by a colon
and a two-to-five-digit port (not one to five: `1.2.3.4:8` is dropped);
`1.2.3.4` and `1.2.3.4:` are excluded and `1.2.3.4:8080` is included;
the result is deduplicated by exact string membership. -/
theorem candidate_collection (texts : List Str) (y : Str) :
    (y ∈ fetchProxyCandidates texts ↔
      ∃ t ∈ texts, ∃ line ∈ splitLines t,
        processLine line = y ∧ specLineShape y) ∧
    (fetchProxyCandidates texts).Nodup ∧
    proxyRe "1.2.3.4:8080".toList = true ∧
    proxyRe "999.1.2.3:80".toList = true ∧
    proxyRe "1.2.3.4".toList = false ∧
    proxyRe "1.2.3.4:".toList = false ∧
    proxyRe "1.2.3.4:8".toList = false := by
  refine ⟨?_, nodup_foldl_collectText texts [] (by simp), by decide,
    by decide, by decide, by decide, by decide⟩
  unfold fetchProxyCandidates
  rw [mem_foldl_collectText]
  simp only [List.not_mem_nil, false_or]
  constructor
  · rintro ⟨t, ht, line, hl, h1, h2⟩
    exact ⟨t, ht, line, hl, h1, (proxyRe_iff_spec y).mp h2⟩
  · rintro ⟨t, ht, line, hl, h1, h2⟩
    exact ⟨t, ht, line, hl, h1, (proxyRe_iff_spec y).mpr h2⟩

set_option maxRecDepth 20000 in
/-- C2 counterexample: the line `999.1.2.3:80`, whose first octet 999
exceeds 255, is retained by the collector — `\d{1,3}` performs no
octet-range check, so the claimed exclusion fails. -/
theorem candidate_999_retained :
    "999.1.2.3:80".toList ∈
      fetchProxyCandidates ["999.1.2.3:80".toList] := by
  decide

/-! ## Refresh orchestration properties -/

lemma batchLoopF_of_ge (test : Str → Bool) (pool : List Str) :
    ∀ (fuel i : Nat) (working : List Str), 35 ≤ working.length →
      batchLoopF test pool fuel i working = working := by
  intro fuel
  induction fuel with
  | zero => intro i working _; rfl
  | succ fuel _ =>
    intro i working hw
    have hcond : ¬ (i < pool.length ∧ working.length < 35) := by omega
    simp only [batchLoopF, if_neg hcond]

lemma batchLoopF_length_le (test : Str → Bool) (pool : List Str) :
    ∀ (fuel i : Nat) (working : List Str), working.length < 35 →
      (batchLoopF test pool fuel i working).length ≤ 49 := by
  intro fuel
  induction fuel with
  | zero => intro i working hw; simp only [batchLoopF]; omega
  | succ fuel ih =>
    intro i working hw
    simp only [batchLoopF]
    split
    · set w2 := working ++ ((pool.drop i).take 15).filter test with hw2
      have hb : (((pool.drop i).take 15).filter test).length ≤ 15 := by
        calc (((pool.drop i).take 15).filter test).length
            ≤ ((pool.drop i).take 15).length := List.length_filter_le _ _
          _ ≤ 15 := List.length_take_le _ _
      have hlen : w2.length ≤ 49 := by
        rw [hw2, List.length_append]; omega
      by_cases h2 : w2.length < 35
      · exact ih (i + 15) w2 h2
      · rw [batchLoopF_of_ge test pool fuel (i + 15) w2 (by omega)]
        exact hlen
    · omega

lemma batchLoop_length_le (test : Str → Bool) (pool : List Str) :
    (batchLoop test pool).length ≤ 49 :=
  batchLoopF_length_le test pool pool.length 0 [] (by simp)

/-- C1 (amended). A completed refresh (single-flight guard passed, no
orchestration error) installs a pool of at most 49 members — not 35: the
early-stop check `working.length < 35` runs only between batches of 15,
so the final batch may overshoot the target of 35 by up to 14 — and at
least 0; and replacement is atomic: whatever the outcome, the pool is
either exactly the previous one or a freshly tested working set already
obeying that bound. -/
theorem refresh_pool_cap (st : St) (texts : List Str)
    (sh : List Str → List Str) (test : Str → Bool) (now : String)
    (h : st.proxyRefreshing = false) :
    (refreshProxyPool st (.ok texts) sh test now).st.proxyPool.length ≤ 49 ∧
    (∀ (st' : St) (r : Except String (List Str)),
      (refreshProxyPool st' r sh test now).st.proxyPool = st'.proxyPool ∨
      (refreshProxyPool st' r sh test now).st.proxyPool.length ≤ 49) := by
  constructor
  · simp only [refreshProxyPool, h, Bool.false_eq_true, if_false]
    exact batchLoop_length_le test _
  · intro st' r
    by_cases h' : st'.proxyRefreshing
    · left; simp [refreshProxyPool, h']
    · cases r with
      | error e => left; simp [refreshProxyPool, h']
      | ok ts =>
        right
        simp only [refreshProxyPool, h', Bool.false_eq_true, if_false]
        exact batchLoop_length_le test _

/-- Witness for `refresh_pool_cap` at the empty initial state. -/
theorem refresh_pool_cap_witness :
    (refreshProxyPool st0 (.ok []) id testAll "t").st.proxyPool.length ≤ 49 :=
  (refresh_pool_cap st0 [] id testAll "t" rfl).1

set_option maxRecDepth 200000 in
set_option maxHeartbeats 1000000 in
/-- C1 counterexample: one source body of 45 distinct valid candidates,
all of which pass testing, yields a completed refresh whose installed
pool has 45 members — more than the stated target cap of 35. -/
theorem refresh_pool_cap_counterexample :
    (refreshProxyPool st0 (.ok [bigBody]) id testAll "t").st.proxyPool.length
        = 45 ∧
    ¬ ((refreshProxyPool st0 (.ok [bigBody]) id testAll
        "t").st.proxyPool.length ≤ 35) := by
  have h : (refreshProxyPool st0 (.ok [bigBody]) id testAll
      "t").st.proxyPool.length = 45 := by decide
  exact ⟨h, by omega⟩

/-- C3. Fail-open: when the orchestration inside the refresher fails
after the single-flight guard passed (the `.error` outcome, which covers
every throw the `catch` of line 170 can see — nothing after the state
assignments can throw), the resulting state is exactly the state before
the call: the pool, and every other field, is untouched. -/
theorem refresh_fail_open (st : St) (e : String)
    (sh : List Str → List Str) (test : Str → Bool) (now : String)
    (h : st.proxyRefreshing = false) :
    (refreshProxyPool st (.error e) sh test now).st = st := by
  cases st
  simp_all [refreshProxyPool]

/-- Witness for `refresh_fail_open` at the initial state. -/
theorem refresh_fail_open_witness :
    (refreshProxyPool st0 (.error "boom") id testAll "t").st = st0 :=
  refresh_fail_open st0 "boom" id testAll "t" rfl

/-- C6. Single-flight idempotence: invoking the refresher while a
refresh is in progress returns immediately — the candidate collector
(the only network phase) is not invoked and the state, pool included, is
returned unchanged. -/
theorem refresh_single_flight (st : St) (texts : Except String (List Str))
    (sh : List Str → List Str) (test : Str → Bool) (now : String)
    (h : st.proxyRefreshing = true) :
    refreshProxyPool st texts sh test now = ⟨st, false⟩ := by
  simp [refreshProxyPool, h]

/-- Witness for `refresh_single_flight` at a state with the flag set. -/
theorem refresh_single_flight_witness :
    refreshProxyPool stFlag (.ok []) id testAll "t" = ⟨stFlag, false⟩ :=
  refresh_single_flight stFlag (.ok []) id testAll "t" rfl

/-- C10. Every refresher invocation that passes the single-flight guard
lowers the in-progress flag again before returning, on the success path
and on the caught-error path alike, so a failed refresh can never leave
the guard permanently set. -/
theorem refresh_clears_flag (st : St) (texts : Except String (List Str))
    (sh : List Str → List Str) (test : Str → Bool) (now : String)
    (h : st.proxyRefreshing = false) :
    (refreshProxyPool st texts sh test now).st.proxyRefreshing = false := by
  cases texts <;> simp [refreshProxyPool, h]

/-- Witness for `refresh_clears_flag` on the error path at the initial
state. -/
theorem refresh_clears_flag_witness :
    (refreshProxyPool st0 (.error "boom") id testAll
      "t").st.proxyRefreshing = false :=
  refresh_clears_flag st0 (.error "boom") id testAll "t" rfl

/-! ## Download fallback properties -/

lemma directAttempt_fields (st : St) (file : MFile) (ver : Version)
    (pt : Option Str) (a : Nat) (dr : Resp) :
    (directAttempt st file ver pt a dr).directTried = true ∧
    (directAttempt st file ver pt a dr).proxyTried = pt ∧
    (directAttempt st file ver pt a dr).proxyOk = false ∧
    (directAttempt st file ver pt a dr).st.proxyPool = st.proxyPool ∧
    (directAttempt st file ver pt a dr).attempts = a + 1 := by
  unfold directAttempt
  split <;> exact ⟨rfl, rfl, rfl, rfl, rfl⟩

lemma downloadFile_attempts_le (st : St) (v : Nat) (pr dr : Resp)
    (o : DlOutcome) (ho : downloadFile st v pr dr = some o) :
    o.attempts ≤ 2 := by
  obtain ⟨vw, dls, df, er, cy, le, ld, vs, pp, ptd, pw, prf, lpr⟩ := st
  rcases vs with _ | ⟨v0, vrest⟩
  · have h2 := Option.some.inj ho
    subst h2
    exact Nat.zero_le 2
  · unfold downloadFile at ho
    simp only [List.isEmpty_cons, Bool.false_eq_true, if_false] at ho
    rcases hpf : pickFile ((v0 :: vrest).getD (v % (v0 :: vrest).length)
        ⟨[], []⟩) with _ | file
    · rw [hpf] at ho
      exact Option.noConfusion ho
    · rw [hpf] at ho
      rcases pp with _ | ⟨p, rest⟩
      · simp only [nextProxy] at ho
        have h2 := Option.some.inj ho
        subst h2
        rcases hdr : directResult dr with len | msg <;>
          simp only [directAttempt, hdr] <;> exact Nat.le_succ 1
      · simp only [nextProxy] at ho
        rcases har : attemptResult pr with msg | len <;> rw [har] at ho <;>
          simp only [] at ho
        · have h2 := Option.some.inj ho
          subst h2
          rcases hdr : directResult dr with m2 | len2 <;>
            simp only [directAttempt, hdr] <;> exact Nat.le_refl 2
        · have h2 := Option.some.inj ho
          subst h2
          exact Nat.le_succ 1

/-- C4. In a download cycle where the pool contains exactly the proxy
`1.2.3.4:8080` and the version metadata reports the single file
`mod-1.0.jar`, a proxied response body of 50 bytes (under the 100-byte
minimum) makes the proxied attempt fail, evicts that proxy (the
resulting pool is empty), and triggers a direct-connection attempt for
the same file within the same call; and in general a `downloadFile`
call never makes more than the single proxy-then-direct pair of
attempts. -/
theorem download_undersized_evicts (st : St) (directResp : Resp)
    (o : DlOutcome)
    (hpool : st.proxyPool = ["1.2.3.4:8080".toList])
    (hver : st.versions = [vC4])
    (ho : downloadFile st 0 (.ok 200 50) directResp = some o) :
    o.proxyOk = false ∧
    o.proxyTried = some "1.2.3.4:8080".toList ∧
    o.st.proxyPool = [] ∧
    o.directTried = true ∧
    o.attempts = 2 ∧
    (∀ (st2 : St) (v : Nat) (pr dr : Resp) (o2 : DlOutcome),
      downloadFile st2 v pr dr = some o2 → o2.attempts ≤ 2) := by
  obtain ⟨vw, dls, df, er, cy, le, ld, vs, pp, ptd, pw, prf, lpr⟩ := st
  dsimp only at hpool hver
  subst hpool
  subst hver
  have h2 := Option.some.inj ho
  subst h2
  refine ⟨?_, ?_, ?_, ?_, ?_,
    fun st2 v pr dr o2 ho2 => downloadFile_attempts_le st2 v pr dr o2 ho2⟩ <;>
    rcases hdr : directResult directResp with len | m <;>
      simp only [directAttempt, hdr] <;> rfl

/-- Witness for `download_undersized_evicts` at the concrete scenario
state. -/
theorem download_undersized_evicts_witness :
    downloadFile stC4 0 (.ok 200 50) (.err "no net") = some oC4 ∧
    oC4.proxyOk = false ∧
    oC4.st.proxyPool = [] ∧
    oC4.directTried = true ∧
    oC4.attempts = 2 := by
  have h := download_undersized_evicts stC4 (.err "no net") oC4 rfl rfl rfl
  exact ⟨rfl, h.1, h.2.2.1, h.2.2.2.1, h.2.2.2.2.1⟩

/-! ## Cycle controller properties -/

/-- C7. The cycle controller never terminates itself on error: whatever
the cycle body (metadata load, view, reading delay, download) does —
including raising an error after partial state updates — the controller
reaches the rescheduling step, and a raised error is counted as one
cycle-level error on top of the state the body left behind. -/
theorem cycle_never_halts (st : St) (body : St → St × Option String) :
    (runCycle st body).rescheduled = true ∧
    (∀ (st2 : St) (e : String),
      body { st with cycles := st.cycles + 1 } = (st2, some e) →
      (runCycle st body).st.errors = st2.errors + 1) := by
  rcases hb : body { st with cycles := st.cycles + 1 } with ⟨stb, ob⟩
  constructor
  · cases ob <;> simp [runCycle, hb]
  · intro st2 e h2
    injection h2 with h2a h2b
    subst h2a
    subst h2b
    simp [runCycle, hb]

/-- Witness for `cycle_never_halts` with a body that raises an error. -/
theorem cycle_never_halts_witness :
    (runCycle st0 bodyBoom).rescheduled = true ∧
    (runCycle st0 bodyBoom).st.errors = 1 := by
  have h := cycle_never_halts st0 bodyBoom
  exact ⟨h.1, h.2 { st0 with cycles := st0.cycles + 1 } "boom" rfl⟩

end Automodrinth
